import Mathlib

/-!
Shallow embedding of the plantuml-manipulator core
(`src/plantuml_manipulator/parser.py`, `manipulator.py`, `validator.py`).

Lines are Lean `String`s (file content with terminators stripped).  Python
string primitives (`str.strip`, `str.startswith`, slicing) are modelled over
the ASCII whitespace set used by the inputs of this system; the participant
regular expression is modelled by a deterministic prefix matcher that follows
the backtracking behaviour of `re.match` on the concrete pattern
`^\s*participant\s+(?:"([^"]+)"|(\S+))\s+as\s+(\w+)(?:\s+#(\w+))?`
(see the comments at each definition).
-/

namespace PlantUML

/-- ASCII whitespace, matching the characters Python `\s` and `str.strip`
recognise on the ASCII range. -/
def isSpace (c : Char) : Bool :=
  c = ' ' || c = '\t' || c = '\n' || c = '\r' || c = '\x0b' || c = '\x0c'

def ltrimChars (l : List Char) : List Char := l.dropWhile isSpace

def rtrimChars (l : List Char) : List Char := (l.reverse.dropWhile isSpace).reverse

/-- Python `str.strip()`. -/
def pyStrip (s : String) : String := String.mk (rtrimChars (ltrimChars s.data))

/-- Python `str.startswith(pre)`. -/
def pyStartsWith (s pre : String) : Bool := pre.data.isPrefixOf s.data

/-- Python `list.insert(pos, x)`: clamps `pos` to the list length. -/
def pyInsert {α : Type} (l : List α) (pos : Nat) (x : α) : List α :=
  l.take pos ++ [x] ++ l.drop pos

/-! ### Parser data model (`parser.py`) -/

structure Participant where
  name : String
  «alias» : String
  color : Option String
  line_number : Nat
  raw_line : String
deriving Repr, DecidableEq

structure Group where
  name : String
  start_line : Nat
  end_line : Nat
  content : List String
  indent_level : Nat
deriving Repr, DecidableEq

/-- The parsed structure; `file_path` is an external I/O concern and is not
modelled. -/
structure DiagramStructure where
  participants : List Participant
  groups : List Group
  raw_lines : List String
  has_start_tag : Bool
  has_end_tag : Bool
deriving Repr, DecidableEq

/-! ### Participant recognition (`PlantUMLParser.find_participants`)

The regex `^\s*participant\s+(?:"([^"]+)"|(\S+))\s+as\s+(\w+)(?:\s+#(\w+))?`
is applied with `re.match` (prefix match, no end anchor).  Each greedy
repetition in the pattern is followed by a token its own character class
cannot produce (`\S+` then `\s`, `\s+` then a non-space literal, `[^"]+`
then `"`), so the only genuine backtracking choice point is the ordered
alternation between the quoted and the unquoted name, which the matcher
below tries in the same order. -/

/-- Python `\w` on the ASCII range. -/
def isWordChar (c : Char) : Bool := c.isAlphanum || c = '_'

/-- Captures of a successful participant match. -/
structure PMatch where
  name : String
  «alias» : String
  color : Option String
deriving Repr, DecidableEq

/-- The optional trailing `(?:\s+#(\w+))?`: greedy, matching empty on any
internal failure. -/
def matchColor (l : List Char) : Option String :=
  match l with
  | c :: _ =>
    if isSpace c then
      match l.dropWhile isSpace with
      | '#' :: l6 =>
        let cw := l6.takeWhile isWordChar
        if cw.isEmpty then none else some (String.mk cw)
      | _ => none
    else none
  | [] => none

/-- The suffix `\s+as\s+(\w+)(?:\s+#(\w+))?` of the pattern, applied after
the name group; returns the alias and optional color captures. -/
def matchAfterName (l : List Char) : Option (String × Option String) :=
  match l with
  | c :: _ =>
    if isSpace c then
      let l2 := l.dropWhile isSpace
      if ("as".data).isPrefixOf l2 then
        let l3 := l2.drop 2
        match l3 with
        | c2 :: _ =>
          if isSpace c2 then
            let l4 := l3.dropWhile isSpace
            let aliasChars := l4.takeWhile isWordChar
            if aliasChars.isEmpty then none
            else some (String.mk aliasChars, matchColor (l4.drop aliasChars.length))
          else none
        | [] => none
      else none
    else none
  | [] => none

/-- The quoted alternative `"([^"]+)"`: returns the name characters and the
rest of the input, or fails. -/
def tryQuotedName (l : List Char) : Option (List Char × List Char) :=
  match l with
  | '"' :: rest =>
    let content := rest.takeWhile (fun c => c ≠ '"')
    if content.isEmpty then none
    else
      match rest.drop content.length with
      | '"' :: rest2 => some (content, rest2)
      | _ => none
  | _ => none

/-- The unquoted alternative `(\S+)` followed by the rest of the pattern. -/
def tryUnquotedName (l : List Char) : Option PMatch :=
  let nameChars := l.takeWhile (fun c => !isSpace c)
  if nameChars.isEmpty then none
  else
    match matchAfterName (l.drop nameChars.length) with
    | some (a, col) => some ⟨String.mk nameChars, a, col⟩
    | none => none

/-- The alternation `(?:"([^"]+)"|(\S+))` followed by the rest of the
pattern; the quoted branch is tried first, and on any later failure the
engine backtracks to the unquoted branch at the same position. -/
def matchName (l : List Char) : Option PMatch :=
  match tryQuotedName l with
  | some (nameChars, rest) =>
    match matchAfterName rest with
    | some (a, col) => some ⟨String.mk nameChars, a, col⟩
    | none => tryUnquotedName l
  | none => tryUnquotedName l

/-- Application of `re.match` with the participant pattern to one line. -/
def matchParticipant (line : String) : Option PMatch :=
  let l1 := line.data.dropWhile isSpace
  if ("participant".data).isPrefixOf l1 then
    let l2 := l1.drop 11
    match l2 with
    | c :: _ => if isSpace c then matchName (l2.dropWhile isSpace) else none
    | [] => none
  else none

def findParticipantsAux : List String → Nat → List Participant
  | [], _ => []
  | line :: rest, i =>
    match matchParticipant line with
    | some m => ⟨m.name, m.alias, m.color, i, line⟩ :: findParticipantsAux rest (i + 1)
    | none => findParticipantsAux rest (i + 1)

/-- Embeds `PlantUMLParser.find_participants`. -/
def find_participants (lines : List String) : List Participant :=
  findParticipantsAux lines 0

/-! ### Group recognition (`PlantUMLParser.find_groups`) -/

/-- Embeds `PlantUMLParser.is_group_start`: trimmed line starts with `"group "`. -/
def is_group_start (line : String) : Bool :=
  pyStartsWith (pyStrip line) "group "

/-- Embeds `PlantUMLParser.is_group_end`: trimmed line is `"end"` or `"end group"`. -/
def is_group_end (line : String) : Bool :=
  pyStrip line = "end" || pyStrip line = "end group"

/-- Embeds `PlantUMLParser.get_indent_level`: count of leading whitespace characters. -/
def get_indent_level (line : String) : Nat :=
  line.data.length - (ltrimChars line.data).length

/-- The group-name extraction `stripped[6:].strip()` from `find_groups`. -/
def extractGroupName (line : String) : String :=
  pyStrip (String.mk ((pyStrip line).data.drop 6))

/-- An entry of the open-group stack in `find_groups`. -/
structure OpenGroup where
  name : String
  start_line : Nat
  indent_level : Nat
  content : List String
deriving Repr, DecidableEq

def findGroupsAux : List String → Nat → List OpenGroup → List Group
  | [], _, _ => []
  | line :: rest, i, stack =>
    if is_group_start line then
      findGroupsAux rest (i + 1)
        (⟨extractGroupName line, i, get_indent_level line, []⟩ :: stack)
    else if is_group_end line then
      match stack with
      | [] => findGroupsAux rest (i + 1) []
      | top :: stackRest =>
        ⟨top.name, top.start_line, i, top.content, top.indent_level⟩ ::
          findGroupsAux rest (i + 1) stackRest
    else
      match stack with
      | [] => findGroupsAux rest (i + 1) []
      | top :: stackRest =>
        findGroupsAux rest (i + 1) ({ top with content := top.content ++ [line] } :: stackRest)

/-- Embeds `PlantUMLParser.find_groups`. -/
def find_groups (lines : List String) : List Group :=
  findGroupsAux lines 0 []

/-- Embeds `PlantUMLParser.parse_lines`. -/
def parse_lines (lines : List String) : DiagramStructure :=
  { participants := find_participants lines
    groups := find_groups lines
    raw_lines := lines
    has_start_tag := lines.any (fun line => pyStartsWith (pyStrip line) "@startuml")
    has_end_tag := lines.any (fun line => pyStartsWith (pyStrip line) "@enduml") }

/-! ### Positional mutator (`manipulator.py`) -/

/-- The error kinds raised by `DiagramManipulator`: the lookup errors
(`GroupNotFoundError`, `ParticipantNotFoundError` in `exceptions.py`) and
the `NotImplementedError` raised by the pending operations; raising in
Python is modelled by returning `Except.error`. -/
inductive ManipError where
  | groupNotFound (group_name : String)
  | participantNotFound (participant_name : String)
  | notImplemented (msg : String)
deriving Repr, DecidableEq

/-- Embeds `DiagramManipulator.insert_after_group`: find the first group with the
requested name (raising when none), splice one blank line plus the block
immediately after the group end line. -/
def insert_after_group (s : DiagramStructure) (group_name : String)
    (block_lines : List String) : Except ManipError (List String) :=
  match s.groups.find? (fun g => g.name == group_name) with
  | none => Except.error (ManipError.groupNotFound group_name)
  | some target =>
    let insert_pos := target.end_line + 1
    Except.ok (s.raw_lines.take insert_pos ++ [""] ++ block_lines ++
      s.raw_lines.drop insert_pos)

/-- The header-scan loop of `DiagramManipulator.add_participant` for the
empty-participants case: walk from the top, remembering the position after
the most recent `@startuml`/`title` line, stopping at the first non-blank
non-header line. -/
def headerInsertPosAux : List String → Nat → Nat → Nat
  | [], _, insert_pos => insert_pos
  | line :: rest, i, insert_pos =>
    if pyStartsWith (pyStrip line) "@startuml" || pyStartsWith (pyStrip line) "title" then
      headerInsertPosAux rest (i + 1) (i + 1)
    else if pyStrip line != "" && !(pyStartsWith (pyStrip line) "title") then
      insert_pos
    else
      headerInsertPosAux rest (i + 1) insert_pos

def headerInsertPos (lines : List String) : Nat := headerInsertPosAux lines 0 0

/-- Placeholder participant; `structure.participants[-1]` is only taken on a
nonempty list, where the default is irrelevant. -/
def defaultParticipant : Participant := ⟨"", "", none, 0, ""⟩

/-- Embeds `DiagramManipulator.add_participant`.  The Python guard
`if after_participant:` is a truthiness test, so `none` and `some ""` both
fall through to the insert-after-last-participant case. -/
def add_participant (s : DiagramStructure) (participant_line : String)
    (after_participant : Option String) : Except ManipError (List String) :=
  if s.participants.isEmpty then
    let insert_pos := headerInsertPos s.raw_lines
    Except.ok (pyInsert (pyInsert s.raw_lines insert_pos "") (insert_pos + 1) participant_line)
  else
    match after_participant with
    | some a =>
      if a = "" then
        Except.ok (pyInsert s.raw_lines
          ((s.participants.getLastD defaultParticipant).line_number + 1) participant_line)
      else
        match s.participants.find? (fun p => p.alias == a || p.name == a) with
        | none => Except.error (ManipError.participantNotFound a)
        | some target =>
          Except.ok (pyInsert s.raw_lines (target.line_number + 1) participant_line)
    | none =>
      Except.ok (pyInsert s.raw_lines
        ((s.participants.getLastD defaultParticipant).line_number + 1) participant_line)

/-- Embeds `DiagramManipulator.remove_group` as it stands in the source:
the body unconditionally raises `NotImplementedError`, so no group lookup,
no named not-found failure and no splice ever happens, for any input. -/
def remove_group (s : DiagramStructure) (group_name : String) :
    Except ManipError (List String) :=
  Except.error (ManipError.notImplemented
    "Manipulator implementation pending - see docs/specification.md")

/-! ### Spec-side descriptions of the splice results, used to state the
claims against the code. -/

/-- Spec wording for Contract A: result is `raw_lines[0 .. end_line]`
inclusive, one blank line, the block verbatim, then the rest. -/
def insertSpliceSpec (raw : List String) (end_line : Nat)
    (block_lines : List String) : List String :=
  raw.take (end_line + 1) ++ [""] ++ block_lines ++ raw.drop (end_line + 1)

/-- Spec wording for group removal: `raw_lines[start_line .. end_line]`
deleted inclusively. -/
def removeSpliceSpec (raw : List String) (start_line end_line : Nat) : List String :=
  raw.take start_line ++ raw.drop (end_line + 1)

/-- A diagram-start marker or title line, the header lines of the
empty-participants insertion rule of `add_participant`. -/
def isHeaderLine (line : String) : Bool :=
  pyStartsWith (pyStrip line) "@startuml" || pyStartsWith (pyStrip line) "title"

/-- A blank line (whitespace only). -/
def isBlankLine (line : String) : Bool := pyStrip line == ""

/-- Spec wording for the empty-participants insertion point: the position
immediately after the last header line within the leading run of
header-or-blank lines, and 0 when that run has no header (the scan stops at
the first line that is non-blank and not a header). -/
def specHeaderPos : List String → Nat
  | [] => 0
  | line :: rest =>
    if isHeaderLine line then specHeaderPos rest + 1
    else if isBlankLine line then
      (if specHeaderPos rest = 0 then 0 else specHeaderPos rest + 1)
    else 0

/-! ### Validator (`validator.py`) -/

inductive ValidationStatus where
  | pass
  | fail
  | warning
  | skipped
deriving Repr, DecidableEq

/-- Embeds `ValidationResult`; `file_path` and the always-empty `warnings` list are
not modelled. -/
structure ValidationResult where
  status : ValidationStatus
  checks_passed : Nat
  checks_failed : Nat
  messages : List String
deriving Repr, DecidableEq

/-- One iteration of the required-groups loop of `validate_structure`.  The
marker strings reproduce the literal characters of the Python source, which
contains mojibake for the check and cross marks. -/
def requiredGroupCheck (group_names : List String) (g : String) : Bool × String :=
  if group_names.contains g then (true, "âœ“ Found required group: " ++ g)
  else (false, "âœ— Missing required group: " ++ g)

/-- One iteration of the required-participants loop of `validate_structure`:
membership in names or aliases. -/
def requiredParticipantCheck (participant_names participant_aliases : List String)
    (p : String) : Bool × String :=
  if participant_names.contains p || participant_aliases.contains p then
    (true, "âœ“ Found required participant: " ++ p)
  else (false, "âœ— Missing required participant: " ++ p)

/-- One iteration of the forbidden-groups loop of `validate_structure`. -/
def forbiddenGroupCheck (group_names : List String) (g : String) : Bool × String :=
  if group_names.contains g then (false, "âœ— Found forbidden group: " ++ g)
  else (true, "âœ“ Forbidden group not present: " ++ g)

/-- The three check loops of `validate_structure` in order: required
groups, required participants (matched against names and aliases),
forbidden groups.  Each requirement name contributes exactly one
pass-or-fail flag and one message. -/
def validationChecks (s : DiagramStructure)
    (required_groups required_participants forbidden_groups : List String) :
    List (Bool × String) :=
  let group_names := s.groups.map (fun g => g.name)
  let participant_names := s.participants.map (fun p => p.name)
  let participant_aliases := s.participants.map (fun p => p.alias)
  required_groups.map (requiredGroupCheck group_names) ++
  required_participants.map (requiredParticipantCheck participant_names participant_aliases) ++
  forbidden_groups.map (forbiddenGroupCheck group_names)

/-- Embeds `DiagramValidator.validate_structure`.  The Python optional arguments
default to `None`, and `if required_groups:` treats `None` and `[]` alike,
so each requirement list is modelled as a plain list where the empty list is
the no-requirement case. -/
def validate_structure (s : DiagramStructure)
    (required_groups required_participants forbidden_groups : List String) :
    ValidationResult :=
  let checks := validationChecks s required_groups required_participants forbidden_groups
  let checks_passed := (checks.filter (fun c => c.1)).length
  let checks_failed := (checks.filter (fun c => !c.1)).length
  { status :=
      if checks_failed > 0 then ValidationStatus.fail
      else if checks_passed > 0 then ValidationStatus.pass
      else ValidationStatus.skipped
    checks_passed := checks_passed
    checks_failed := checks_failed
    messages := checks.map (fun c => c.2) }

/-! ### Concrete fixtures used by the witnesses and counterexamples -/

/-- The insert-after-group fixture of spec section 8: one group `X` spanning
lines 2-4 of a six-line file. -/
def exInsertS : DiagramStructure :=
  { participants := []
    groups := [⟨"X", 2, 4, ["L3"], 0⟩]
    raw_lines := ["L0", "L1", "L2", "L3", "L4", "L5"]
    has_start_tag := false
    has_end_tag := false }

/-- The add-participant-after-alias fixture of spec section 8: participants
with aliases `A` (line 1) and `B` (line 3). -/
def exAddS : DiagramStructure :=
  parse_lines ["@startuml", "participant X as A", "X -> Y", "participant Y as B", "@enduml"]

/-- A structure with no participants, for the C6 counterexample. -/
def exNoPartS : DiagramStructure :=
  parse_lines ["@startuml", "A -> B : hi", "@enduml"]

/-- A structure with one group, for the validator witness. -/
def exValS : DiagramStructure :=
  parse_lines ["@startuml", "group GG", "end", "@enduml"]

/-! ### Invariants of the group state machine -/

/-- Every group emitted by `findGroupsAux` running at index `i` closes at
line `i` or later. -/
lemma findGroupsAux_end_line_ge :
    ∀ (lines : List String) (i : Nat) (stack : List OpenGroup) (g : Group),
      g ∈ findGroupsAux lines i stack → i ≤ g.end_line := by
  intro lines
  induction lines with
  | nil => intro i stack g hg; simp [findGroupsAux] at hg
  | cons line rest ih =>
    intro i stack g hg
    cases h1 : is_group_start line with
    | true =>
      simp only [findGroupsAux, h1, if_true] at hg
      exact Nat.le_of_succ_le (ih (i + 1) _ g hg)
    | false =>
      cases h2 : is_group_end line with
      | true =>
        cases stack with
        | nil =>
          simp only [findGroupsAux, h1, h2, Bool.false_eq_true, if_false, if_true] at hg
          exact Nat.le_of_succ_le (ih (i + 1) [] g hg)
        | cons top stackRest =>
          simp only [findGroupsAux, h1, h2, Bool.false_eq_true, if_false, if_true,
            List.mem_cons] at hg
          rcases hg with hEq | hMem
          · subst hEq; exact Nat.le_refl i
          · exact Nat.le_of_succ_le (ih (i + 1) stackRest g hMem)
      | false =>
        cases stack with
        | nil =>
          simp only [findGroupsAux, h1, h2, Bool.false_eq_true, if_false] at hg
          exact Nat.le_of_succ_le (ih (i + 1) [] g hg)
        | cons top stackRest =>
          simp only [findGroupsAux, h1, h2, Bool.false_eq_true, if_false] at hg
          exact Nat.le_of_succ_le (ih (i + 1) _ g hg)

/-- The emitted group list is ordered by strictly increasing closing line
(stack-pop order). -/
lemma findGroupsAux_pairwise :
    ∀ (lines : List String) (i : Nat) (stack : List OpenGroup),
      (findGroupsAux lines i stack).Pairwise
        (fun g₁ g₂ => g₁.end_line < g₂.end_line) := by
  intro lines
  induction lines with
  | nil => intro i stack; simp [findGroupsAux]
  | cons line rest ih =>
    intro i stack
    cases h1 : is_group_start line with
    | true =>
      simp only [findGroupsAux, h1, if_true]
      exact ih (i + 1) _
    | false =>
      cases h2 : is_group_end line with
      | true =>
        cases stack with
        | nil =>
          simp only [findGroupsAux, h1, h2, Bool.false_eq_true, if_false, if_true]
          exact ih (i + 1) []
        | cons top stackRest =>
          simp only [findGroupsAux, h1, h2, Bool.false_eq_true, if_false, if_true]
          refine List.Pairwise.cons ?_ (ih (i + 1) stackRest)
          intro g hg
          have hge := findGroupsAux_end_line_ge rest (i + 1) stackRest g hg
          simpa using Nat.lt_of_succ_le hge
      | false =>
        cases stack with
        | nil =>
          simp only [findGroupsAux, h1, h2, Bool.false_eq_true, if_false]
          exact ih (i + 1) []
        | cons top stackRest =>
          simp only [findGroupsAux, h1, h2, Bool.false_eq_true, if_false]
          exact ih (i + 1) _

/-- Soundness of the group state machine against the original line list:
every emitted group closes at a group-end line after its group-start line,
and its name and indent are computed from that start line.  `rest` is the
unprocessed suffix, related to the original list by the index map. -/
lemma findGroupsAux_sound :
    ∀ (rest : List String) (orig : List String) (i : Nat) (stack : List OpenGroup),
      (∀ j, rest.get? j = orig.get? (i + j)) →
      (∀ o ∈ stack, o.start_line < i ∧
        is_group_start (orig.getD o.start_line "") = true ∧
        o.name = extractGroupName (orig.getD o.start_line "") ∧
        o.indent_level = get_indent_level (orig.getD o.start_line "")) →
      ∀ g ∈ findGroupsAux rest i stack,
        g.start_line < g.end_line ∧ g.end_line < orig.length ∧
        is_group_start (orig.getD g.start_line "") = true ∧
        is_group_end (orig.getD g.end_line "") = true ∧
        g.name = extractGroupName (orig.getD g.start_line "") ∧
        g.indent_level = get_indent_level (orig.getD g.start_line "") := by
  intro rest
  induction rest with
  | nil => intro orig i stack hrel hstack g hg; simp [findGroupsAux] at hg
  | cons line rest' ih =>
    intro orig i stack hrel hstack g hg
    have hline : orig.get? i = some line := by
      have h := hrel 0
      simpa using h.symm
    have hgetD : orig.getD i "" = line := by
      rw [List.getD_eq_get?, hline]; rfl
    have hilen : i < orig.length := by
      have := List.get?_eq_some.mp hline
      exact this.1
    have hrel' : ∀ j, rest'.get? j = orig.get? ((i + 1) + j) := by
      intro j
      have h := hrel (j + 1)
      have h2 : (line :: rest').get? (j + 1) = rest'.get? j := rfl
      rw [h2] at h
      rw [h]
      congr 1
      omega
    cases h1 : is_group_start line with
    | true =>
      simp only [findGroupsAux, h1, if_true] at hg
      refine ih orig (i + 1) _ hrel' ?_ g hg
      intro o ho
      rcases List.mem_cons.mp ho with hEq | hMem
      · subst hEq
        refine ⟨Nat.lt_succ_self i, ?_, ?_, ?_⟩ <;> rw [hgetD]
        exact h1
      · have h := hstack o hMem
        exact ⟨Nat.lt_succ_of_lt h.1, h.2.1, h.2.2.1, h.2.2.2⟩
    | false =>
      cases h2 : is_group_end line with
      | true =>
        cases stack with
        | nil =>
          simp only [findGroupsAux, h1, h2, Bool.false_eq_true, if_false, if_true] at hg
          refine ih orig (i + 1) [] hrel' (by simp) g hg
        | cons top stackRest =>
          simp only [findGroupsAux, h1, h2, Bool.false_eq_true, if_false, if_true,
            List.mem_cons] at hg
          rcases hg with hEq | hMem
          · have htop := hstack top (List.mem_cons_self top stackRest)
            subst hEq
            refine ⟨htop.1, hilen, htop.2.1, ?_, htop.2.2.1, htop.2.2.2⟩
            rw [hgetD]; exact h2
          · refine ih orig (i + 1) stackRest hrel' ?_ g hMem
            intro o ho
            have h := hstack o (List.mem_cons_of_mem top ho)
            exact ⟨Nat.lt_succ_of_lt h.1, h.2.1, h.2.2.1, h.2.2.2⟩
      | false =>
        cases stack with
        | nil =>
          simp only [findGroupsAux, h1, h2, Bool.false_eq_true, if_false] at hg
          exact ih orig (i + 1) [] hrel' (by simp) g hg
        | cons top stackRest =>
          simp only [findGroupsAux, h1, h2, Bool.false_eq_true, if_false] at hg
          refine ih orig (i + 1) _ hrel' ?_ g hg
          intro o ho
          rcases List.mem_cons.mp ho with hEq | hMem
          · have htop := hstack top (List.mem_cons_self top stackRest)
            subst hEq
            exact ⟨Nat.lt_succ_of_lt htop.1, htop.2.1, htop.2.2.1, htop.2.2.2⟩
          · have h := hstack o (List.mem_cons_of_mem top hMem)
            exact ⟨Nat.lt_succ_of_lt h.1, h.2.1, h.2.2.1, h.2.2.2⟩

/-! ### Claim theorems -/

/-- C2: on `["group A","group B","end","end"]` the parser produces exactly
two groups, the innermost (`B`, lines 1-2) before the outermost (`A`, lines
0-3), each with empty content; and in general the groups list is ordered by
strictly increasing closing line, i.e. stack-pop order. -/
theorem c2_nesting_pop_order :
    find_groups ["group A", "group B", "end", "end"] =
      [⟨"B", 1, 2, [], 0⟩, ⟨"A", 0, 3, [], 0⟩] ∧
    ∀ lines : List String,
      (find_groups lines).Pairwise (fun g₁ g₂ => g₁.end_line < g₂.end_line) := by
  refine ⟨by decide, ?_⟩
  intro lines
  exact findGroupsAux_pairwise lines 0 []

/-- C3 counterexample: for the start line `"group  X"` (two spaces) the
parser yields the name `"X"`, not the untrimmed remainder `" X"` the claim
requires — `stripped[6:].strip()` strips the remainder again. -/
theorem c3_name_counterexample :
    (find_groups ["group  X", "end"]).map (fun g => g.name) = ["X"] ∧
    ("X" : String) ≠ " X" := by
  decide

/-- C3 (amended): every parsed group starts at a group-start line, and its
name is the remainder of the trimmed start line after the 6-character
`group ` prefix with surrounding whitespace stripped from the remainder
(interior text preserved as-is). -/
theorem c3_group_name_trimmed (lines : List String) (g : Group)
    (hg : g ∈ find_groups lines) :
    is_group_start (lines.getD g.start_line "") = true ∧
    g.name = extractGroupName (lines.getD g.start_line "") := by
  have h := findGroupsAux_sound lines lines 0 [] (fun j => by simp) (by simp) g hg
  exact ⟨h.2.2.1, h.2.2.2.2.1⟩

/-- C3 witness: the amended statement evaluated on `["group  X", "end"]`. -/
theorem c3_group_name_trimmed_witness :
    is_group_start ((["group  X", "end"] : List String).getD 0 "") = true ∧
    (Group.mk "X" 0 1 [] 0).name =
      extractGroupName ((["group  X", "end"] : List String).getD 0 "") :=
  c3_group_name_trimmed ["group  X", "end"] ⟨"X", 0, 1, [], 0⟩ (by decide)

/-- C7: a stray group-end with no open group is discarded (the example
`["end","group A","end"]` yields exactly the group `A` over lines 1-2), and
every emitted group has a group-start line and a matching later group-end
line inside the input, so unclosed groups are never emitted; the parser is
a total function and never raises. -/
theorem c7_malformed_nesting :
    find_groups ["end", "group A", "end"] = [⟨"A", 1, 2, [], 0⟩] ∧
    ∀ (lines : List String) (g : Group), g ∈ find_groups lines →
      g.start_line < g.end_line ∧ g.end_line < lines.length ∧
      is_group_start (lines.getD g.start_line "") = true ∧
      is_group_end (lines.getD g.end_line "") = true := by
  refine ⟨by decide, ?_⟩
  intro lines g hg
  have h := findGroupsAux_sound lines lines 0 [] (fun j => by simp) (by simp) g hg
  exact ⟨h.1, h.2.1, h.2.2.1, h.2.2.2.1⟩

/-- C7 witness: the general part evaluated on `["end", "group A", "end"]`. -/
theorem c7_malformed_nesting_witness :
    (Group.mk "A" 1 2 [] 0).start_line < (Group.mk "A" 1 2 [] 0).end_line ∧
    (Group.mk "A" 1 2 [] 0).end_line < (["end", "group A", "end"] : List String).length ∧
    is_group_start ((["end", "group A", "end"] : List String).getD
      (Group.mk "A" 1 2 [] 0).start_line "") = true ∧
    is_group_end ((["end", "group A", "end"] : List String).getD
      (Group.mk "A" 1 2 [] 0).end_line "") = true :=
  c7_malformed_nesting.2 ["end", "group A", "end"] ⟨"A", 1, 2, [], 0⟩ (by decide)

/-- C8: the parser never mutates its input: the `raw_lines` of the parsed
structure are exactly the original line sequence, so reconstructing the
file from `raw_lines` is the identity. -/
theorem c8_parse_round_trip (lines : List String) :
    (parse_lines lines).raw_lines = lines := rfl

/-- Every line whose prefix matches the participant pattern contributes a
participant whose recorded `line_number` is the 0-based index of that line
and whose captures are those of the match. -/
lemma findParticipantsAux_complete :
    ∀ (rest : List String) (i0 j : Nat) (m : PMatch),
      matchParticipant (rest.getD j "") = some m → j < rest.length →
      ∃ p ∈ findParticipantsAux rest i0,
        p.line_number = i0 + j ∧ p.name = m.name ∧ p.alias = m.alias ∧
        p.color = m.color ∧ p.raw_line = rest.getD j "" := by
  intro rest
  induction rest with
  | nil => intro i0 j m hm hj; simp at hj
  | cons line rest' ih =>
    intro i0 j m hm hj
    cases j with
    | zero =>
      have hline : matchParticipant line = some m := by simpa using hm
      refine ⟨⟨m.name, m.alias, m.color, i0, line⟩, ?_, by simp, rfl, rfl, rfl, by simp⟩
      simp only [findParticipantsAux, hline]
      exact List.mem_cons_self _ _
    | succ j' =>
      have hm' : matchParticipant (rest'.getD j' "") = some m := by simpa using hm
      have hj' : j' < rest'.length := by simpa [Nat.succ_lt_succ_iff] using hj
      obtain ⟨p, hp, hln, hn, ha, hc, hr⟩ := ih (i0 + 1) j' m hm' hj'
      refine ⟨p, ?_, by omega, hn, ha, hc, by simpa using hr⟩
      cases hline : matchParticipant line with
      | some m2 =>
        simp only [findParticipantsAux, hline]
        exact List.mem_cons_of_mem _ hp
      | none =>
        simp only [findParticipantsAux, hline]
        exact hp

/-- C10: participant recognition is anchored only at the start of the line:
whenever the pattern matches a prefix of a line, `find_participants` yields
a participant for it even with arbitrary trailing text (the example line
has junk after the alias), and its `line_number` is the 0-based index of
the line. -/
theorem c10_participant_prefix_match :
    find_participants ["participant A as B plus trailing junk"] =
      [⟨"A", "B", none, 0, "participant A as B plus trailing junk"⟩] ∧
    ∀ (lines : List String) (i : Nat) (m : PMatch),
      matchParticipant (lines.getD i "") = some m → i < lines.length →
      ∃ p ∈ find_participants lines,
        p.line_number = i ∧ p.name = m.name ∧ p.alias = m.alias ∧
        p.color = m.color ∧ p.raw_line = lines.getD i "" := by
  refine ⟨by decide, ?_⟩
  intro lines i m hm hi
  have h := findParticipantsAux_complete lines 0 i m hm hi
  simpa [find_participants] using h

/-- C10 witness: the general part evaluated at line index 1 of a two-line
input whose second line carries trailing junk. -/
theorem c10_participant_prefix_match_witness :
    ∃ p ∈ find_participants ["A -> B", "participant A as B plus trailing junk"],
      p.line_number = 1 ∧ p.name = (PMatch.mk "A" "B" none).name ∧
      p.alias = (PMatch.mk "A" "B" none).alias ∧
      p.color = (PMatch.mk "A" "B" none).color ∧
      p.raw_line = (["A -> B", "participant A as B plus trailing junk"] : List String).getD 1 "" :=
  c10_participant_prefix_match.2 ["A -> B", "participant A as B plus trailing junk"] 1
    ⟨"A", "B", none⟩ (by decide) (by decide)

/-- C1: when the requested name matches a group (the first match in the
stored pop-order list), `insert_after_group` returns the original lines up
to and including the group end line, one blank line, the block verbatim,
then the remaining lines; every line outside the inserted span is
byte-identical to the corresponding input line. -/
theorem c1_insert_after_group_splice (s : DiagramStructure) (group_name : String)
    (block_lines : List String) (grp : Group)
    (hfind : s.groups.find? (fun g => g.name == group_name) = some grp)
    (hend : grp.end_line < s.raw_lines.length) :
    insert_after_group s group_name block_lines =
      Except.ok (insertSpliceSpec s.raw_lines grp.end_line block_lines) ∧
    (∀ j, j ≤ grp.end_line →
      (insertSpliceSpec s.raw_lines grp.end_line block_lines).get? j =
        s.raw_lines.get? j) ∧
    (∀ j, (insertSpliceSpec s.raw_lines grp.end_line block_lines).get?
        (grp.end_line + 2 + block_lines.length + j) =
      s.raw_lines.get? (grp.end_line + 1 + j)) := by
  have htake : (s.raw_lines.take (grp.end_line + 1)).length = grp.end_line + 1 := by
    rw [List.length_take]
    omega
  refine ⟨?_, ?_, ?_⟩
  · unfold insert_after_group insertSpliceSpec
    rw [hfind]
  · intro j hj
    unfold insertSpliceSpec
    rw [List.append_assoc, List.append_assoc]
    rw [List.get?_append (by rw [htake]; omega), List.get?_take (by omega)]
  · intro j
    unfold insertSpliceSpec
    rw [List.append_assoc, List.append_assoc]
    rw [List.get?_append_right (by rw [htake]; omega), htake]
    have h1 : grp.end_line + 2 + block_lines.length + j - (grp.end_line + 1) =
        1 + (block_lines.length + j) := by omega
    rw [h1, List.get?_append_right (by simp), List.length_singleton]
    have h2 : 1 + (block_lines.length + j) - 1 = block_lines.length + j := by omega
    rw [h2, List.get?_append_right (by omega)]
    have h3 : block_lines.length + j - block_lines.length = j := by omega
    rw [h3, List.get?_drop]

/-- C1 witness: the spec section 8 fixture — group `X` over lines 2-4 of a
six-line file, inserting `["NEW"]`. -/
theorem c1_insert_after_group_splice_witness :
    insert_after_group exInsertS "X" ["NEW"] =
      Except.ok ["L0", "L1", "L2", "L3", "L4", "", "NEW", "L5"] := by
  have h := (c1_insert_after_group_splice exInsertS "X" ["NEW"] ⟨"X", 2, 4, ["L3"], 0⟩
    (by decide) (by decide)).1
  rw [h]
  rfl

/-- C9 (code bug): the claim describes the documented removal contract —
delete `raw_lines[start_line .. end_line]` inclusive or fail with a named
error — but the source body of `remove_group` unconditionally raises
`NotImplementedError`, contradicting its own docstring (which promises the
modified line list and a not-found error) and its skipped unit test.  On
the spec section 8 fixture the code raises instead of returning the
claimed deletion `["L0", "L1", "L5"]`. -/
theorem c9_remove_group_not_implemented :
    (∀ (s : DiagramStructure) (group_name : String),
      remove_group s group_name =
        Except.error (ManipError.notImplemented
          "Manipulator implementation pending - see docs/specification.md")) ∧
    removeSpliceSpec exInsertS.raw_lines 2 4 = ["L0", "L1", "L5"] ∧
    remove_group exInsertS "X" ≠
      Except.ok (removeSpliceSpec exInsertS.raw_lines 2 4) := by
  refine ⟨fun s group_name => rfl, rfl, ?_⟩
  intro h
  simp [remove_group] at h

/-- The header-scan loop computes the declarative header position: `pos` is
returned untouched when the leading header-or-blank run contains no header,
and otherwise the scan ends `specHeaderPos` lines after where it started. -/
lemma headerInsertPosAux_eq :
    ∀ (lines : List String) (i insert_pos : Nat),
      headerInsertPosAux lines i insert_pos =
        if specHeaderPos lines = 0 then insert_pos else i + specHeaderPos lines := by
  intro lines
  induction lines with
  | nil => intro i pos; simp [headerInsertPosAux, specHeaderPos]
  | cons line rest ih =>
    intro i pos
    cases hh : isHeaderLine line with
    | true =>
      have hcond : (pyStartsWith (pyStrip line) "@startuml" ||
          pyStartsWith (pyStrip line) "title") = true := hh
      simp only [headerInsertPosAux, hcond, if_true]
      rw [ih]
      simp only [specHeaderPos, hh, if_true]
      split_ifs <;> first | (exfalso; assumption) | omega
    | false =>
      have hsu : pyStartsWith (pyStrip line) "@startuml" = false := by
        have h : (pyStartsWith (pyStrip line) "@startuml" ||
            pyStartsWith (pyStrip line) "title") = false := hh
        exact (Bool.or_eq_false_iff.mp h).1
      have hti : pyStartsWith (pyStrip line) "title" = false := by
        have h : (pyStartsWith (pyStrip line) "@startuml" ||
            pyStartsWith (pyStrip line) "title") = false := hh
        exact (Bool.or_eq_false_iff.mp h).2
      cases hb : isBlankLine line with
      | true =>
        have hbeq : (pyStrip line == "") = true := hb
        simp only [headerInsertPosAux, hsu, hti, Bool.or_self, Bool.false_eq_true,
          if_false, bne, hbeq, Bool.not_true, Bool.false_and]
        rw [ih]
        simp only [specHeaderPos, hh, Bool.false_eq_true, if_false, hb, if_true]
        split_ifs <;> first | (exfalso; assumption) | omega
      | false =>
        have hbeq : (pyStrip line == "") = false := hb
        simp only [headerInsertPosAux, hsu, hti, Bool.or_self, Bool.false_eq_true,
          if_false, bne, hbeq, Bool.not_false, Bool.not_true, Bool.true_and, if_true]
        simp only [specHeaderPos, hh, Bool.false_eq_true, if_false, hb, if_true]

/-- The empty-participants insertion position of `add_participant` equals
the declarative header position. -/
lemma headerInsertPos_eq (lines : List String) :
    headerInsertPos lines = specHeaderPos lines := by
  rw [headerInsertPos, headerInsertPosAux_eq]
  split_ifs with h <;> omega

/-- C4: the three-case insertion rule of `add_participant`: with no
participants, one blank line plus the participant line go right after the
last header (`@startuml`/`title`) line of the leading header-or-blank run
(position 0 when there is none); with a truthy `after_participant` matching
the alias or name of a participant (first match in declaration order), the
line goes right after that declaration with no blank padding; otherwise the
line goes right after the last declared participant.  `pyInsert` leaves all
pre-existing lines in content and relative order. -/
theorem c4_add_participant_position (s : DiagramStructure) (participant_line : String)
    (after_participant : Option String) :
    (s.participants = [] →
      add_participant s participant_line after_participant =
        Except.ok (pyInsert (pyInsert s.raw_lines (specHeaderPos s.raw_lines) "")
          (specHeaderPos s.raw_lines + 1) participant_line)) ∧
    (∀ a target, after_participant = some a → a ≠ "" →
      s.participants.find? (fun p => p.alias == a || p.name == a) = some target →
      add_participant s participant_line after_participant =
        Except.ok (pyInsert s.raw_lines (target.line_number + 1) participant_line)) ∧
    (after_participant = none → s.participants ≠ [] →
      add_participant s participant_line after_participant =
        Except.ok (pyInsert s.raw_lines
          ((s.participants.getLastD defaultParticipant).line_number + 1) participant_line)) := by
  refine ⟨?_, ?_, ?_⟩
  · intro hemp
    unfold add_participant
    rw [hemp]
    simp [List.isEmpty, headerInsertPos_eq]
  · intro a target ha hne hfind
    have hie : s.participants.isEmpty = false := by
      cases hp : s.participants with
      | nil => rw [hp] at hfind; simp [List.find?] at hfind
      | cons x xs => rfl
    unfold add_participant
    rw [ha, hie]
    simp only [Bool.false_eq_true, if_false]
    rw [if_neg hne, hfind]
  · intro ha hne
    have hie : s.participants.isEmpty = false := by
      cases hp : s.participants with
      | nil => exact absurd hp hne
      | cons x xs => rfl
    unfold add_participant
    rw [ha, hie]
    simp only [Bool.false_eq_true, if_false]

/-- C4 witness: the spec section 8 fixture — inserting after alias `A`
(declared on line 1) puts the new line at index 2. -/
theorem c4_add_participant_position_witness :
    add_participant exAddS "participant Z as C" (some "A") =
      Except.ok ["@startuml", "participant X as A", "participant Z as C",
        "X -> Y", "participant Y as B", "@enduml"] := by
  have h := (c4_add_participant_position exAddS "participant Z as C" (some "A")).2.1
    "A" ⟨"X", "A", none, 1, "participant X as A"⟩ rfl (by decide) (by decide)
  rw [h]
  rfl

/-- Splitting a list by a Bool predicate splits its length. -/
lemma length_filter_add_length_filter_not {α : Type} (p : α → Bool) (l : List α) :
    (l.filter p).length + (l.filter (fun x => !p x)).length = l.length := by
  induction l with
  | nil => rfl
  | cons x xs ih =>
    cases h : p x <;> simp [List.filter_cons, h] <;> omega

/-- The verdict of `validate_structure` is computed from the two counters. -/
lemma validate_structure_status (s : DiagramStructure) (rg rp fg : List String) :
    (validate_structure s rg rp fg).status =
      (if 0 < (validate_structure s rg rp fg).checks_failed then ValidationStatus.fail
       else if 0 < (validate_structure s rg rp fg).checks_passed then ValidationStatus.pass
       else ValidationStatus.skipped) := rfl

lemma verdict_fail_iff (cf cp : Nat) :
    ((if 0 < cf then ValidationStatus.fail
      else if 0 < cp then ValidationStatus.pass
      else ValidationStatus.skipped) = ValidationStatus.fail) ↔ 0 < cf := by
  split_ifs with h1 h2
  · exact iff_of_true rfl h1
  · exact iff_of_false (by simp) h1
  · exact iff_of_false (by simp) h1

lemma verdict_pass_iff (cf cp : Nat) :
    ((if 0 < cf then ValidationStatus.fail
      else if 0 < cp then ValidationStatus.pass
      else ValidationStatus.skipped) = ValidationStatus.pass) ↔ (cf = 0 ∧ 0 < cp) := by
  split_ifs with h1 h2
  · exact iff_of_false (by simp) (by omega)
  · exact iff_of_true rfl ⟨by omega, h2⟩
  · exact iff_of_false (by simp) (by omega)

lemma verdict_skipped_iff (cf cp : Nat) :
    ((if 0 < cf then ValidationStatus.fail
      else if 0 < cp then ValidationStatus.pass
      else ValidationStatus.skipped) = ValidationStatus.skipped) ↔ (cf = 0 ∧ cp = 0) := by
  split_ifs with h1 h2
  · exact iff_of_false (by simp) (by omega)
  · exact iff_of_false (by simp) (by omega)
  · exact iff_of_true rfl ⟨by omega, by omega⟩

/-- Validation against a single required group, by cases on membership. -/
lemma validate_single_group (s : DiagramStructure) (g : String) :
    validate_structure s [g] [] [] =
      (if (s.groups.map (fun x => x.name)).contains g then
        (⟨ValidationStatus.pass, 1, 0,
          ["\u00e2\u0153\u201c Found required group: " ++ g]⟩ : ValidationResult)
      else
        ⟨ValidationStatus.fail, 0, 1,
          ["\u00e2\u0153\u2014 Missing required group: " ++ g]⟩) := by
  cases hb : (s.groups.map (fun x => x.name)).contains g <;>
    simp only [validate_structure, validationChecks, requiredGroupCheck,
      List.map_cons, List.map_nil, List.nil_append, List.append_nil, hb] <;>
    rfl

/-- C5: the verdict is computed only from the per-check counts — FAIL iff
some check failed, else PASS iff some check ran, else SKIPPED; empty
requirement lists yield SKIPPED with no checks; a present required group
yields PASS with zero failures, an absent one yields FAIL with one failure
and a message naming the group; and every requirement name contributes
exactly one pass-or-fail and one message. -/
theorem c5_validator_three_way (s : DiagramStructure) (rg rp fg : List String)
    (g : String) :
    validate_structure s [] [] [] = ⟨ValidationStatus.skipped, 0, 0, []⟩ ∧
    ((validate_structure s rg rp fg).status = ValidationStatus.fail ↔
      0 < (validate_structure s rg rp fg).checks_failed) ∧
    ((validate_structure s rg rp fg).status = ValidationStatus.pass ↔
      ((validate_structure s rg rp fg).checks_failed = 0 ∧
        0 < (validate_structure s rg rp fg).checks_passed)) ∧
    ((validate_structure s rg rp fg).status = ValidationStatus.skipped ↔
      ((validate_structure s rg rp fg).checks_failed = 0 ∧
        (validate_structure s rg rp fg).checks_passed = 0)) ∧
    (validate_structure s rg rp fg).checks_passed +
      (validate_structure s rg rp fg).checks_failed =
      rg.length + rp.length + fg.length ∧
    (validate_structure s rg rp fg).messages.length =
      rg.length + rp.length + fg.length ∧
    (g ∈ s.groups.map (fun x => x.name) →
      validate_structure s [g] [] [] =
        ⟨ValidationStatus.pass, 1, 0, ["âœ“ Found required group: " ++ g]⟩) ∧
    (g ∉ s.groups.map (fun x => x.name) →
      validate_structure s [g] [] [] =
        ⟨ValidationStatus.fail, 0, 1, ["âœ— Missing required group: " ++ g]⟩) := by
  refine ⟨rfl, ?_, ?_, ?_, ?_, ?_, ?_, ?_⟩
  · rw [validate_structure_status]; exact verdict_fail_iff _ _
  · rw [validate_structure_status]; exact verdict_pass_iff _ _
  · rw [validate_structure_status]; exact verdict_skipped_iff _ _
  · have h := length_filter_add_length_filter_not (fun c : Bool × String => c.1)
      (validationChecks s rg rp fg)
    have hlen : (validationChecks s rg rp fg).length =
        rg.length + rp.length + fg.length := by
      simp [validationChecks]
      omega
    exact h.trans hlen
  · have hlen : (validationChecks s rg rp fg).length =
        rg.length + rp.length + fg.length := by
      simp [validationChecks]
      omega
    simpa [validate_structure] using hlen
  · intro hg
    have hc : (s.groups.map (fun x => x.name)).contains g = true := by
      simpa using hg
    rw [validate_single_group, hc]
    rfl
  · intro hg
    have hc : (s.groups.map (fun x => x.name)).contains g = false := by
      simpa using hg
    rw [validate_single_group, hc]
    rfl

/-- C5 witness: a present and an absent required group on a concrete
structure. -/
theorem c5_validator_three_way_witness :
    validate_structure exValS ["GG"] [] [] =
      ⟨ValidationStatus.pass, 1, 0, ["âœ“ Found required group: GG"]⟩ ∧
    validate_structure exValS ["ZZ"] [] [] =
      ⟨ValidationStatus.fail, 0, 1, ["âœ— Missing required group: ZZ"]⟩ :=
  ⟨(c5_validator_three_way exValS [] [] [] "GG").2.2.2.2.2.2.1 (by decide),
   (c5_validator_three_way exValS [] [] [] "ZZ").2.2.2.2.2.2.2 (by decide)⟩

/-- C6 counterexample: with an empty participant list and a truthy
`after_participant` that matches nothing, `add_participant` does not raise:
the empty-participants branch runs first and splices at the header
position, so the error condition is not "exactly when no participant
matches". -/
theorem c6_counterexample :
    exNoPartS.participants = [] ∧
    add_participant exNoPartS "participant X as X" (some "Y") =
      Except.ok ["@startuml", "", "participant X as X", "A -> B : hi", "@enduml"] := by
  exact ⟨by decide, rfl⟩

/-- C6 (amended): `insert_after_group` returns the group-not-found error
exactly when no group has the requested name, and `add_participant` with
`after_participant` given returns the participant-not-found error exactly
when the participant list is nonempty, the argument is truthy (non-empty),
and no participant matches by alias or name; both are pure functions whose
errors are returned to the caller, never defaulted to a splice point. -/
theorem c6_not_found_errors (s : DiagramStructure)
    (group_name a participant_line : String) (block_lines : List String) :
    (insert_after_group s group_name block_lines =
        Except.error (ManipError.groupNotFound group_name) ↔
      ∀ grp ∈ s.groups, grp.name ≠ group_name) ∧
    (add_participant s participant_line (some a) =
        Except.error (ManipError.participantNotFound a) ↔
      (s.participants ≠ [] ∧ a ≠ "" ∧
        ∀ p ∈ s.participants, p.alias ≠ a ∧ p.name ≠ a)) := by
  constructor
  · cases hf : s.groups.find? (fun g => g.name == group_name) with
    | none =>
      refine iff_of_true ?_ ?_
      · unfold insert_after_group
        rw [hf]
      · intro grp hgrp
        have h := List.find?_eq_none.mp hf grp hgrp
        simpa using h
    | some grp =>
      refine iff_of_false ?_ ?_
      · unfold insert_after_group
        rw [hf]
        simp
      · intro hall
        have hmem := List.mem_of_find?_eq_some hf
        have hpred := List.find?_some hf
        exact absurd (by simpa using hpred) (hall grp hmem)
  · cases hp : s.participants with
    | nil =>
      have hie : s.participants.isEmpty = true := by rw [hp]; rfl
      refine iff_of_false ?_ ?_
      · unfold add_participant
        rw [hie]
        simp
      · simp [hp]
    | cons p0 ps =>
      have hie : s.participants.isEmpty = false := by rw [hp]; rfl
      by_cases hae : a = ""
      · refine iff_of_false ?_ ?_
        · unfold add_participant
          rw [hie, hae]
          simp
        · simp [hae]
      · cases hf : s.participants.find? (fun p => p.alias == a || p.name == a) with
        | none =>
          refine iff_of_true ?_ ?_
          · unfold add_participant
            rw [hie]
            simp only [Bool.false_eq_true, if_false]
            rw [if_neg hae, hf]
          · refine ⟨by simp, hae, ?_⟩
            intro p hpmem
            rw [← hp] at hpmem
            have h := List.find?_eq_none.mp hf p hpmem
            simpa using h
        | some t =>
          refine iff_of_false ?_ ?_
          · unfold add_participant
            rw [hie]
            simp only [Bool.false_eq_true, if_false]
            rw [if_neg hae, hf]
            simp
          · rintro ⟨-, -, hall⟩
            have hmem := List.mem_of_find?_eq_some hf
            rw [hp] at hmem
            have hpred := List.find?_some hf
            have h := hall t hmem
            simp only [Bool.or_eq_true, beq_iff_eq] at hpred
            rcases hpred with h1 | h2
            · exact absurd h1 h.1
            · exact absurd h2 h.2

/-- C6 witness: a missing group name produces the propagated error. -/
theorem c6_not_found_errors_witness :
    insert_after_group exValS "Nope" [] =
      Except.error (ManipError.groupNotFound "Nope") :=
  (c6_not_found_errors exValS "Nope" "Y" "x" []).1.mpr (by decide)

end PlantUML
